import Mathlib

/-!
Verification of the account-factory command handlers
(`src/framework/contracts/native/account-factory/src/commands.rs`).

The Rust handlers are shallowly embedded: contract storage becomes an explicit
`Storage` record threaded through the functions, fallible code returns
`Except AccountFactoryError`, external collaborators (version-control registry,
module factory, wasm code-info queries, `cw_ownable`, the instantiate2 address
derivation and the account-id salt, which live outside `src/`) are supplied as
explicit query records or modelled from the spec at their interface boundary.
-/

namespace AccountFactory

/-- A ledger address: either a plain named (bech32-style) address, or an address
derived by the content-addressed instantiate2 scheme from a canonical creator
address, a code checksum and a salt.  Modelled from the spec: the derivation is
`address = f(origin_address, checksum, salt)` and is injective per
`(checksum, salt)` pair, so it is embedded as a constructor. -/
inductive Addr where
  | named (s : String)
  | contract (creatorCanon : String) (checksum : List Nat) (salt : List Nat)
deriving DecidableEq

/-- `AccountTrace` (abstract_std): the origin trace of an account id. -/
inductive AccountTrace where
  | localTrace
  | remote (path : List String)
deriving DecidableEq

/-- `AccountId` (abstract_std): sequence number plus origin trace.
The sequence is a `u32` in the source; it is embedded as `Nat`, with the
`u32` bound made explicit where checked arithmetic occurs. -/
structure AccountId where
  seq : Nat
  trace : AccountTrace
deriving DecidableEq

/-- `AccountId::is_local`. -/
def AccountId.isLocal (aid : AccountId) : Bool :=
  match aid.trace with
  | .localTrace => true
  | .remote _ => false

/-- `cosmwasm_std::Coin` with a `Nat` amount (`Uint128` in the source; no
subtraction in the handlers can underflow silently, and the checked operations
carry their bound explicitly). -/
structure Coin where
  denom : String
  amount : Nat
deriving DecidableEq

/-- `cosmwasm_std::Coins`: a map from denomination to a positive amount,
embedded as an association list (the `BTreeMap` of the source). -/
abbrev CoinsMap := List (String × Nat)

/-- `Coins::sub`: checked subtraction of one coin.  An occupied entry is
decreased (and removed when it reaches zero); subtracting from a vacant entry
succeeds only for a zero amount; a subtraction that would go negative fails. -/
def Coins.sub : CoinsMap → Coin → Option CoinsMap
  | [], c => if c.amount = 0 then some [] else none
  | (d, a) :: rest, c =>
    if d = c.denom then
      if c.amount ≤ a then
        if a - c.amount = 0 then some rest else some ((d, a - c.amount) :: rest)
      else none
    else (Coins.sub rest c).map (fun m => (d, a) :: m)

/-- `Coins::amount_of`: total amount held for a denomination. -/
def Coins.amountOf : CoinsMap → String → Nat
  | [], _ => 0
  | (d, a) :: rest, x => (if d = x then a else 0) + Coins.amountOf rest x

/-- Total amount of one denomination in a plain coin list (multiset view). -/
def coinsTotal : List Coin → String → Nat
  | [], _ => 0
  | c :: rest, x => (if c.denom = x then c.amount else 0) + coinsTotal rest x

/-- The `BTreeMap` key invariant: no duplicate denominations. -/
def Coins.keysNodup (m : CoinsMap) : Prop := (m.map Prod.fst).Nodup

/-- `Coins::try_from(Vec<Coin>)`: fails on duplicate denominations, drops
zero-amount entries. -/
def Coins.tryFromList (l : List Coin) : Option CoinsMap :=
  if (l.map Coin.denom).Nodup then
    some ((l.filter (fun c => c.amount != 0)).map (fun c => (c.denom, c.amount)))
  else none

/-- `Coins::into_vec`. -/
def coinsToVec (m : CoinsMap) : List Coin := m.map (fun p => ⟨p.fst, p.snd⟩)

/-- The typed errors of the account factory (`error.rs` variants reached by the
embedded handlers; panics of the source — `unwrap` on the deposit conversion and
on the checked counter increment — are embedded as dedicated fatal errors). -/
inductive AccountFactoryError where
  | subAccountCreatorNotManager (caller manager : Addr)
  | expectedAccountIdFailed (predicted actual : AccountId)
  | ibcHostNotSet
  | senderNotIbcHost (sender ibcHost : Addr)
  | traceVerification
  | notOwner
  | duplicateDeposit
  | feeMismatch (expected sent : List Coin)
  | wrongModuleKind (moduleId expectedKind : String)
  | contextNotFound
  | sequenceOverflow
  | moduleDataInvalid (moduleId : String)
deriving DecidableEq

/-- The fund-partitioning loop of `execute_create_account` (lines 125-138):
subtract, coin by coin, the installation cost then the namespace cost from the
mutable deposit; the first subtraction that would go negative aborts with a fee
error reporting the installation-cost list and the originally sent funds. -/
def partition_funds (deposit : CoinsMap) (toSubtract : List Coin)
    (funds_for_install : List Coin) (sent : List Coin) :
    Except AccountFactoryError CoinsMap :=
  match toSubtract with
  | [] => .ok deposit
  | c :: rest =>
    match Coins.sub deposit c with
    | some m => partition_funds m rest funds_for_install sent
    | none => .error (.feeMismatch funds_for_install sent)

/-! Arithmetic facts about `Coins.sub` and the partitioning loop. -/

theorem Coins.amountOf_eq_zero_of_not_mem {m : CoinsMap} {d : String}
    (h : d ∉ m.map Prod.fst) : Coins.amountOf m d = 0 := by
  induction m with
  | nil => rfl
  | cons p rest ih =>
    obtain ⟨pd, pa⟩ := p
    simp only [List.map_cons, List.mem_cons, not_or] at h
    simp only [Coins.amountOf, ih h.2]
    rw [if_neg (fun hh => h.1 hh.symm)]

theorem Coins.sub_amountOf {m : CoinsMap} {c : Coin} {m' : CoinsMap}
    (h : Coins.sub m c = some m') (x : String) :
    Coins.amountOf m' x =
      Coins.amountOf m x - (if c.denom = x then c.amount else 0) := by
  induction m generalizing m' with
  | nil =>
    simp only [Coins.sub] at h
    split at h
    · next h0 =>
      cases h
      simp [Coins.amountOf, h0]
    · cases h
  | cons p rest ih =>
    obtain ⟨d, a⟩ := p
    simp only [Coins.sub] at h
    by_cases hd : d = c.denom
    · rw [if_pos hd] at h
      by_cases hle : c.amount ≤ a
      · rw [if_pos hle] at h
        by_cases hz : a - c.amount = 0
        · rw [if_pos hz] at h
          cases h
          by_cases hx : c.denom = x
          · have hax : a = c.amount := by omega
            simp [Coins.amountOf, hd, hx, hax]
          · have hdx : ¬ d = x := fun hh => hx (hd ▸ hh)
            simp [Coins.amountOf, hdx, hx]
        · rw [if_neg hz] at h
          cases h
          by_cases hx : c.denom = x
          · have hdx : d = x := hd.trans hx
            simp only [Coins.amountOf, if_pos hdx, if_pos hx]
            omega
          · have hdx : ¬ d = x := fun hh => hx (hd ▸ hh)
            simp [Coins.amountOf, hdx, hx]
      · rw [if_neg hle] at h
        cases h
    · rw [if_neg hd] at h
      cases h0 : Coins.sub rest c with
      | none => rw [h0] at h; cases h
      | some m0 =>
        rw [h0] at h
        simp only [Option.map_some'] at h
        cases h
        have := ih h0
        by_cases hx : c.denom = x
        · have hdx : ¬ d = x := fun hh => hd (hh.trans hx.symm)
          simp only [Coins.amountOf, if_neg hdx, this, if_pos hx]
          omega
        · by_cases hdx : d = x
          · simp only [Coins.amountOf, if_pos hdx, this, if_neg hx]
            omega
          · simp only [Coins.amountOf, if_neg hdx, this, if_neg hx]
            omega

theorem Coins.sub_isSome {m : CoinsMap} {c : Coin}
    (hnd : Coins.keysNodup m) :
    (Coins.sub m c).isSome ↔ c.amount ≤ Coins.amountOf m c.denom := by
  induction m with
  | nil =>
    simp only [Coins.sub, Coins.amountOf]
    by_cases h0 : c.amount = 0
    · simp [h0]
    · simp [h0, Nat.le_zero]
  | cons p rest ih =>
    obtain ⟨d, a⟩ := p
    have hnd2 : (d :: rest.map Prod.fst).Nodup := by
      simpa [Coins.keysNodup] using hnd
    have hnd' : Coins.keysNodup rest := by
      simpa [Coins.keysNodup] using (List.nodup_cons.mp hnd2).2
    have hdmem : d ∉ rest.map Prod.fst := (List.nodup_cons.mp hnd2).1
    simp only [Coins.sub]
    by_cases hd : d = c.denom
    · rw [if_pos hd]
      have hz : Coins.amountOf rest c.denom = 0 :=
        Coins.amountOf_eq_zero_of_not_mem (hd ▸ hdmem)
      simp only [Coins.amountOf, if_pos hd, hz, Nat.add_zero]
      by_cases hle : c.amount ≤ a
      · rw [if_pos hle]
        have hs : (if a - c.amount = 0 then some rest
            else some ((d, a - c.amount) :: rest)).isSome = true := by
          split <;> rfl
        simp [hs, hle]
      · rw [if_neg hle]
        simp [hle]
    · rw [if_neg hd]
      simp only [Coins.amountOf, if_neg hd, Nat.zero_add]
      rw [← ih hnd']
      cases Coins.sub rest c <;> simp

theorem Coins.sub_keys_sublist {m : CoinsMap} {c : Coin} {m' : CoinsMap}
    (h : Coins.sub m c = some m') :
    (m'.map Prod.fst).Sublist (m.map Prod.fst) := by
  induction m generalizing m' with
  | nil =>
    simp only [Coins.sub] at h
    split at h
    · cases h; exact List.Sublist.refl _
    · cases h
  | cons p rest ih =>
    obtain ⟨d, a⟩ := p
    simp only [Coins.sub] at h
    by_cases hd : d = c.denom
    · rw [if_pos hd] at h
      by_cases hle : c.amount ≤ a
      · rw [if_pos hle] at h
        by_cases hz : a - c.amount = 0
        · rw [if_pos hz] at h
          cases h
          simp only [List.map_cons]
          exact List.sublist_cons_self _ _
        · rw [if_neg hz] at h
          cases h
          simp only [List.map_cons]
          exact List.Sublist.refl _
      · rw [if_neg hle] at h
        cases h
    · rw [if_neg hd] at h
      cases h0 : Coins.sub rest c with
      | none => rw [h0] at h; cases h
      | some m0 =>
        rw [h0] at h
        simp only [Option.map_some'] at h
        cases h
        simpa using List.Sublist.cons₂ d (ih h0)

theorem Coins.sub_keysNodup {m : CoinsMap} {c : Coin} {m' : CoinsMap}
    (hnd : Coins.keysNodup m) (h : Coins.sub m c = some m') :
    Coins.keysNodup m' :=
  List.Nodup.sublist (Coins.sub_keys_sublist h) hnd

theorem partition_funds_ok (cs : List Coin) (m : CoinsMap) (i s : List Coin)
    (hnd : Coins.keysNodup m)
    (hle : ∀ x, coinsTotal cs x ≤ Coins.amountOf m x) :
    ∃ r, partition_funds m cs i s = .ok r ∧ Coins.keysNodup r ∧
      ∀ x, Coins.amountOf r x = Coins.amountOf m x - coinsTotal cs x := by
  induction cs generalizing m with
  | nil =>
    refine ⟨m, rfl, hnd, fun x => ?_⟩
    simp [coinsTotal]
  | cons c rest ih =>
    have hc : c.amount ≤ Coins.amountOf m c.denom := by
      have h1 : c.amount + coinsTotal rest c.denom ≤ Coins.amountOf m c.denom := by
        simpa [coinsTotal] using hle c.denom
      omega
    have hsome : (Coins.sub m c).isSome := (Coins.sub_isSome hnd).mpr hc
    cases h0 : Coins.sub m c with
    | none => rw [h0] at hsome; cases hsome
    | some m1 =>
      have hnd1 : Coins.keysNodup m1 := Coins.sub_keysNodup hnd h0
      have hamt := fun x => Coins.sub_amountOf h0 x
      have hle1 : ∀ x, coinsTotal rest x ≤ Coins.amountOf m1 x := by
        intro x
        have h1 := hle x
        have h2 := hamt x
        simp only [coinsTotal] at h1
        by_cases hx : c.denom = x
        · rw [if_pos hx] at h1 h2
          omega
        · rw [if_neg hx] at h1 h2
          omega
      obtain ⟨r, hr, hrnd, hramt⟩ := ih m1 hnd1 hle1
      refine ⟨r, ?_, hrnd, fun x => ?_⟩
      · simp only [partition_funds, h0, hr]
      · have h3 := hramt x
        have h2 := hamt x
        have h1 := hle x
        simp only [coinsTotal] at h1 ⊢
        by_cases hx : c.denom = x
        · rw [if_pos hx] at h1 h2 ⊢
          omega
        · rw [if_neg hx] at h1 h2 ⊢
          omega

theorem partition_funds_fail (cs : List Coin) (m : CoinsMap) (i s : List Coin)
    (hnd : Coins.keysNodup m) (x : String)
    (hlt : Coins.amountOf m x < coinsTotal cs x) :
    partition_funds m cs i s = .error (.feeMismatch i s) := by
  induction cs generalizing m with
  | nil => simp [coinsTotal] at hlt
  | cons c rest ih =>
    cases h0 : Coins.sub m c with
    | none => simp only [partition_funds, h0]
    | some m1 =>
      have hc : c.amount ≤ Coins.amountOf m c.denom := by
        have := (Coins.sub_isSome hnd).mp (by rw [h0]; rfl)
        exact this
      have hnd1 : Coins.keysNodup m1 := Coins.sub_keysNodup hnd h0
      have h2 := Coins.sub_amountOf h0 x
      have hlt1 : Coins.amountOf m1 x < coinsTotal rest x := by
        simp only [coinsTotal] at hlt
        by_cases hx : c.denom = x
        · rw [if_pos hx] at h2 hlt
          have : c.amount ≤ Coins.amountOf m x := hx ▸ hc
          omega
        · rw [if_neg hx] at h2 hlt
          omega
      simp only [partition_funds, h0]
      exact ih m1 hnd1 hlt1

theorem coinsTotal_append (l1 l2 : List Coin) (x : String) :
    coinsTotal (l1 ++ l2) x = coinsTotal l1 x + coinsTotal l2 x := by
  induction l1 with
  | nil => simp [coinsTotal]
  | cons c rest ih => simp [coinsTotal, ih]; omega

theorem Coins.amountOf_ofList (l : List Coin) (x : String) :
    Coins.amountOf
      ((l.filter (fun c => c.amount != 0)).map (fun c => (c.denom, c.amount))) x
      = coinsTotal l x := by
  induction l with
  | nil => rfl
  | cons c rest ih =>
    simp only [List.filter_cons]
    by_cases hz : c.amount = 0
    · have hb : (c.amount != 0) = false := by simp [hz]
      simp only [hb, Bool.false_eq_true, if_false, coinsTotal, hz, ite_self,
        Nat.zero_add]
      exact ih
    · have hb : (c.amount != 0) = true := by simp [hz]
      simp only [hb, if_true, List.map_cons, Coins.amountOf, coinsTotal, ih]

theorem Coins.amountOf_tryFromList {l : List Coin} {m : CoinsMap}
    (h : Coins.tryFromList l = some m) (x : String) :
    Coins.amountOf m x = coinsTotal l x := by
  simp only [Coins.tryFromList] at h
  split at h
  · cases h
    exact Coins.amountOf_ofList l x
  · cases h

theorem Coins.tryFromList_keysNodup {l : List Coin} {m : CoinsMap}
    (h : Coins.tryFromList l = some m) : Coins.keysNodup m := by
  simp only [Coins.tryFromList] at h
  split at h
  · next hnd =>
    cases h
    have hsub : ((l.filter (fun c => c.amount != 0)).map Coin.denom).Sublist
        (l.map Coin.denom) := (List.filter_sublist l).map Coin.denom
    have : ((l.filter (fun c => c.amount != 0)).map Coin.denom).Nodup :=
      List.Nodup.sublist hsub hnd
    simpa [Coins.keysNodup, Function.comp] using this
  · cases h

/-! Remaining data model. -/

/-- `ModuleReference` (abstract_std): how a registered module resolves.  Only
the `AccountBase(code_id)` arm is accepted by the factory for the proxy and
manager modules. -/
inductive ModuleReference where
  | accountBase (codeId : Nat)
  | app (addr : Addr)
  | standalone (codeId : Nat)
deriving DecidableEq

/-- A resolved registry `Module`: its identifier (`ModuleInfo` rendered as a
string) and its reference. -/
structure Module where
  info : String
  reference : ModuleReference
deriving DecidableEq

/-- The factory `Config` record (`state.rs`). -/
structure Config where
  ans_host_contract : Addr
  version_control_contract : Addr
  module_factory_address : Addr
  ibc_host : Option Addr
deriving DecidableEq

/-- `AccountBase` (version_control): the manager/proxy address pair. -/
structure AccountBase where
  manager : Addr
  proxy : Addr
deriving DecidableEq

/-- The transient `Context` record saved by `execute_create_account` and
consumed by `validate_instantiated_account`. -/
structure Context where
  account_id : AccountId
  account_base : AccountBase
  manager_module : Module
  proxy_module : Module
deriving DecidableEq

/-- The factory's persisted state: `CONFIG`, `LOCAL_ACCOUNT_SEQUENCE`
(`may_load`, hence `Option Nat`), the single `CONTEXT` slot, and the
`cw_ownable` owner record. -/
structure Storage where
  config : Config
  local_account_sequence : Option Nat
  context : Option Context
  owner : Option Addr
deriving DecidableEq

/-- `GovernanceDetails` after verification (only the `SubAccount` arm is
inspected by the factory). -/
inductive GovernanceDetails where
  | monarchy (monarch : Addr)
  | subAccount (manager : Addr) (proxy : Addr)
  | externalGov (governanceAddress : Addr) (governanceType : String)
deriving DecidableEq

def GovernanceDetails.toStr : GovernanceDetails → String
  | .monarchy _ => "monarch"
  | .subAccount _ _ => "sub-account"
  | .externalGov _ t => t

/-! Rendering helpers (Display impls used for attributes and labels). -/

def natsToString (l : List Nat) : String :=
  String.intercalate "," (l.map toString)

def addrToString : Addr → String
  | .named s => s
  | .contract creator checksum salt =>
    "wasm:" ++ creator ++ ":" ++ natsToString checksum ++ ":" ++ natsToString salt

/-- Modelled from the spec: the origin-trace rendering used by the
`trace` attribute ("local" or the remote path). -/
def traceToString : AccountTrace → String
  | .localTrace => "local"
  | .remote path => String.intercalate ">" path

/-- Modelled from the spec: the `AccountId` rendering used in labels and the
confirmation event. -/
def accountIdToString (aid : AccountId) : String :=
  traceToString aid.trace ++ "-" ++ toString aid.seq

/-! Messages and responses. -/

/-- The wasm message payloads serialized by the factory
(`VCExecuteMsg::AddAccount`, `ProxyInstantiateMsg`, `ManagerInstantiateMsg`),
kept structural instead of JSON-encoded. -/
inductive WasmPayload where
  | addAccount (account_id : AccountId) (account_base : AccountBase)
      (ns : Option String)
  | proxyInit (account_id : AccountId) (ans_host_address : String)
      (manager_addr : String) (base_asset : Option String)
  | managerInit (account_id : AccountId) (owner : GovernanceDetails)
      (version_control_address : String) (module_factory_address : String)
      (proxy_addr : String) (name : String) (description : Option String)
      (link : Option String) (install_modules : List String)
deriving DecidableEq

inductive CosmosMsg where
  | wasmExecute (contract_addr : Addr) (funds : List Coin) (msg : WasmPayload)
  | wasmInstantiate2 (code_id : Nat) (funds : List Coin) (admin : Option Addr)
      (label : String) (msg : WasmPayload) (salt : List Nat)
deriving DecidableEq

inductive ReplyOn where
  | never
  | onSuccess
deriving DecidableEq

structure SubMsg where
  msg : CosmosMsg
  id : Nat
  reply_on : ReplyOn
deriving DecidableEq

/-- `add_message`: a fire-and-forget message. -/
def SubMsg.new (m : CosmosMsg) : SubMsg := ⟨m, 0, .never⟩

/-- `SubMsg::reply_on_success`. -/
def SubMsg.replyOnSuccess (m : CosmosMsg) (i : Nat) : SubMsg := ⟨m, i, .onSuccess⟩

/-- The observable part of an `AccountFactoryResponse`: the action tag, the
event attributes and the emitted messages, in order. -/
structure Response where
  action : String
  attributes : List (String × String)
  messages : List SubMsg
deriving DecidableEq

def Response.new (action : String) (attrs : List (String × String)) : Response :=
  ⟨action, attrs, []⟩

/-! External collaborators and repository code outside `src/`,
modelled at the interface boundary. -/

/-- Modelled from the spec: a chain name in a remote origin path is a short
non-empty lowercase identifier (the `ChainName` validation of abstract_std's
`AccountTrace::verify`, which is not under `src/`). -/
def chainNameValid (s : String) : Bool :=
  s.length > 0 && s.length ≤ 20 &&
    s.toList.all (fun c => c.isLower || c.isDigit || c = '-')

/-- Modelled from the spec: `AccountTrace::verify` — a local trace is always
well-formed; a remote trace must carry a non-empty path of valid chain names. -/
def AccountTrace.verify : AccountTrace → Except AccountFactoryError Unit
  | .localTrace => .ok ()
  | .remote path =>
    if path ≠ [] ∧ path.all chainNameValid then .ok () else .error .traceVerification

/-- Modelled from the spec: `AccountTrace::verify_remote` — the trace must be
remote and independently verify as a well-formed remote path. -/
def AccountTrace.verify_remote : AccountTrace → Except AccountFactoryError Unit
  | .localTrace => .error .traceVerification
  | .remote path => AccountTrace.verify (.remote path)

/-- `AccountId::new` (abstract_std, outside `src/`): modelled from the spec as
constructing the identifier after validating its trace. -/
def AccountId.new (seq : Nat) (tr : AccountTrace) :
    Except AccountFactoryError AccountId := do
  tr.verify
  pure ⟨seq, tr⟩

/-- Modelled from the spec: the reserved bootstrap identifier
(`ABSTRACT_ACCOUNT_ID`) has sequence 0, matching the unset-counter default of
the bootstrap scenario. -/
def ABSTRACT_ACCOUNT_SEQ : Nat := 0

/-- Modelled from the spec: `cw_ownable::assert_owner` — the caller must hold
the owner capability, else an authorization error. -/
def assert_owner (st : Storage) (sender : Addr) : Except AccountFactoryError Unit :=
  if st.owner = some sender then .ok () else .error .notOwner

/-- Modelled from the spec: `addr_canonicalize` on the factory's own address
(injective canonical encoding). -/
def addrCanonicalize (a : Addr) : String := addrToString a

/-- Modelled from the spec: `instantiate2_address` — the content-addressed,
init-data-independent derivation `address = f(origin_address, checksum, salt)`,
unique per `(checksum, salt)` pair; humanization is the identity embedding. -/
def instantiate2_address (checksum : List Nat) (creatorCanon : String)
    (salt : List Nat) : Addr :=
  .contract creatorCanon checksum salt

/-- Modelled from the spec: `generate_instantiate_salt` (abstract_std, outside
`src/`) — a salt derived purely and deterministically from the
`AccountIdentifier`. -/
def generate_instantiate_salt (aid : AccountId) : List Nat :=
  aid.seq ::
    (match aid.trace with
     | .localTrace => [0]
     | .remote path => 1 :: path.map String.length)

/-- The `u32` bound of the persisted account sequence. -/
def UINT32_BOUND : Nat := 4294967296

/-- `seq().checked_add(1).unwrap()`: the checked increment of the local
sequence; overflow is fatal (the source panics) and is embedded as the fatal
`sequenceOverflow` error. -/
def checked_add_one (n : Nat) : Except AccountFactoryError Nat :=
  if n + 1 < UINT32_BOUND then .ok (n + 1) else .error .sequenceOverflow

/-- The replies of the external collaborators consulted by
`execute_create_account`: governance verification against the registry, the
two module lookups, the module-factory install-cost simulation, the namespace
registration fee, and the wasm code-info checksum query. -/
structure ExtQueries where
  verifyGov : GovernanceDetails → Except AccountFactoryError GovernanceDetails
  proxyModule : Except AccountFactoryError Module
  managerModule : Except AccountFactoryError Module
  simulateInstallCost : Except AccountFactoryError (List Coin)
  namespaceFee : Except AccountFactoryError (List Coin)
  checksumOf : Nat → Except AccountFactoryError (List Nat)
  contractAddress : Addr

/-- The reply of `assert_module_data_validity` for a module/deployed-address
pair, consulted by `validate_instantiated_account`. -/
structure ValidateQueries where
  assertModuleDataValidity : Module → Addr → Except AccountFactoryError Unit

/-- The request of `execute_create_account`: message info (sender and funds)
plus the execute-message fields.  `ns` embeds the `namespace` argument
(a Lean keyword). -/
structure CreateInputs where
  sender : Addr
  funds : List Coin
  governance : GovernanceDetails
  name : String
  description : Option String
  link : Option String
  ns : Option String
  base_asset : Option String
  install_modules : List String
  account_id : Option AccountId
deriving DecidableEq

/-! The command handlers of `commands.rs`. -/

def CREATE_ACCOUNT_MANAGER_MSG_ID : Nat := 2

/-- `generate_new_local_account_id`: read the persisted next sequence
(default 0), require the owner capability when it equals the reserved
bootstrap sequence, and return `{sequence: next, origin: Local}` without
modifying storage. -/
def generate_new_local_account_id (st : Storage) (sender : Addr) :
    Except AccountFactoryError AccountId := do
  let next_sequence := st.local_account_sequence.getD 0
  if next_sequence = ABSTRACT_ACCOUNT_SEQ then
    assert_owner st sender
  AccountId.new next_sequence AccountTrace.localTrace

/-- The sub-account ownership check of `execute_create_account`
(lines 60-69): when creating a sub-account the caller must be the proposed
owner's manager. -/
def check_sub_account (sender : Addr) :
    GovernanceDetails → Except AccountFactoryError Unit
  | .subAccount manager _proxy =>
    if sender = manager then .ok ()
    else .error (.subAccountCreatorNotManager sender manager)
  | _ => .ok ()

/-- The account-id resolution of `execute_create_account` (lines 72-101):
a supplied local id must equal the recomputed next local id; a supplied
non-local id requires the configured ibc host as caller and a verified remote
trace; no id means allocating the next local id. -/
def resolve_account_id (st : Storage) (sender : Addr) :
    Option AccountId → Except AccountFactoryError AccountId
  | some aid =>
    if aid.isLocal then do
      let generated ← generate_new_local_account_id st sender
      if generated = aid then pure generated
      else throw (.expectedAccountIdFailed aid generated)
    else do
      let ibcHost ← (match st.config.ibc_host with
        | some h => Except.ok h
        | none => Except.error AccountFactoryError.ibcHostNotSet)
      if sender = ibcHost then pure ()
      else throw (.senderNotIbcHost sender ibcHost)
      aid.trace.verify_remote
      pure aid
  | none => generate_new_local_account_id st sender

/-- The namespace-fee resolution of `execute_create_account` (lines 116-123):
query the registry's namespace registration fee only when a namespace was
requested, else no fee. -/
def namespace_fee_funds (q : ExtQueries) (inp : CreateInputs) :
    Except AccountFactoryError (List Coin) :=
  if inp.ns.isSome then q.namespaceFee else .ok []

/-- The code-id extraction of `execute_create_account` (lines 143-156): both
resolved modules must be of the `AccountBase` kind; otherwise the handler
fails with a wrong-module-kind error that names the proxy module's identifier
and the expected kind string. -/
def resolve_code_ids (proxy_module manager_module : Module) :
    Except AccountFactoryError (Nat × Nat) :=
  match proxy_module.reference, manager_module.reference with
  | .accountBase proxy_code_id, .accountBase manager_code_id =>
    .ok (proxy_code_id, manager_code_id)
  | _, _ => .error (.wrongModuleKind proxy_module.info "account_base")

/-- The metadata attributes of the creation event (lines 207-222). -/
def metadata_attributes (inp : CreateInputs) (governance : GovernanceDetails) :
    List (String × String) :=
  [("governance", governance.toStr), ("name", inp.name)]
    ++ (match inp.description with | some d => [("description", d)] | none => [])
    ++ (match inp.link with | some l => [("link", l)] | none => [])
    ++ (match inp.ns with | some n => [("namespace", n)] | none => [])
    ++ (match inp.base_asset with | some b => [("base_asset", b)] | none => [])

/-- The response assembled by `execute_create_account` (lines 230-277): the
creation event followed by the three ordered operations — register the account
with the registry (forwarding the namespace fee), instantiate the proxy at its
predicted address with the residual funds and the manager as admin, and
instantiate the manager with the install funds as a reply-on-success
submessage that triggers `validate_instantiated_account`. -/
def creation_response (config : Config) (inp : CreateInputs)
    (governance : GovernanceDetails) (account_id : AccountId)
    (account_base : AccountBase) (funds_for_namespace_fee : List Coin)
    (funds_to_proxy : CoinsMap) (funds_for_install : List Coin)
    (proxy_code_id manager_code_id : Nat) (salt : List Nat) : Response :=
  { action := "create_account"
    attributes :=
      [("account_sequence", toString account_id.seq),
       ("trace", traceToString account_id.trace)]
        ++ metadata_attributes inp governance
    messages :=
      [SubMsg.new (CosmosMsg.wasmExecute config.version_control_contract
          funds_for_namespace_fee
          (WasmPayload.addAccount account_id account_base inp.ns)),
       SubMsg.new (CosmosMsg.wasmInstantiate2 proxy_code_id
          (coinsToVec funds_to_proxy) (some account_base.manager)
          ("Proxy of Account: " ++ accountIdToString account_id)
          (WasmPayload.proxyInit account_id
            (addrToString config.ans_host_contract)
            (addrToString account_base.manager) inp.base_asset)
          salt),
       SubMsg.replyOnSuccess (CosmosMsg.wasmInstantiate2 manager_code_id
          funds_for_install (some account_base.manager)
          ("Manager of Account: " ++ accountIdToString account_id)
          (WasmPayload.managerInit account_id governance
            (addrToString config.version_control_contract)
            (addrToString config.module_factory_address)
            (addrToString account_base.proxy) inp.name inp.description inp.link
            inp.install_modules)
          salt)
          CREATE_ACCOUNT_MANAGER_MSG_ID] }

/-- `execute_create_account`: the creation orchestrator.  Returns the updated
storage (only the `CONTEXT` slot is written) and the response; every failure
aborts with no storage change (the embedding returns only the error, matching
the all-or-nothing transaction semantics). -/
def execute_create_account (q : ExtQueries) (st : Storage) (inp : CreateInputs) :
    Except AccountFactoryError (Storage × Response) := do
  let config := st.config
  let governance ← q.verifyGov inp.governance
  check_sub_account inp.sender governance
  let account_id ← resolve_account_id st inp.sender inp.account_id
  let proxy_module ← q.proxyModule
  let manager_module ← q.managerModule
  let funds_for_install ← q.simulateInstallCost
  let funds_for_namespace_fee ← namespace_fee_funds q inp
  let deposit ← (match Coins.tryFromList inp.funds with
    | some m => Except.ok m
    | none => Except.error AccountFactoryError.duplicateDeposit)
  let funds_to_proxy ← partition_funds deposit
      (funds_for_install ++ funds_for_namespace_fee) funds_for_install inp.funds
  let salt := generate_instantiate_salt account_id
  let codeIds ← resolve_code_ids proxy_module manager_module
  let proxy_checksum ← q.checksumOf codeIds.fst
  let manager_checksum ← q.checksumOf codeIds.snd
  let factoryCanon := addrCanonicalize q.contractAddress
  let proxy_addr := instantiate2_address proxy_checksum factoryCanon salt
  let manager_addr := instantiate2_address manager_checksum factoryCanon salt
  let account_base : AccountBase := ⟨manager_addr, proxy_addr⟩
  let context : Context := ⟨account_id, account_base, manager_module, proxy_module⟩
  Except.ok ({ st with context := some context },
    creation_response config inp governance account_id account_base
      funds_for_namespace_fee funds_to_proxy funds_for_install
      codeIds.fst codeIds.snd salt)

/-- `validate_instantiated_account`: the deferred validator.  Loads and
immediately deletes the `CONTEXT`, re-validates both modules against their
deployed addresses, bumps the local sequence (checked) for local-origin ids,
and emits the confirmation event. -/
def validate_instantiated_account (q : ValidateQueries) (st : Storage) :
    Except AccountFactoryError (Storage × Response) := do
  let context ← (match st.context with
    | some c => Except.ok c
    | none => Except.error AccountFactoryError.contextNotFound)
  let st1 : Storage := { st with context := none }
  q.assertModuleDataValidity context.manager_module context.account_base.manager
  q.assertModuleDataValidity context.proxy_module context.account_base.proxy
  let st2 ← (if context.account_id.isLocal then do
      let nextSeq ← checked_add_one context.account_id.seq
      Except.ok { st1 with local_account_sequence := some nextSeq }
    else Except.ok st1)
  Except.ok (st2, Response.new "create_account"
    [("account", accountIdToString context.account_id),
     ("manager_address", addrToString context.account_base.manager),
     ("proxy_address", addrToString context.account_base.proxy)])

/-! Monadic reduction lemmas for the `Except` embedding. -/

@[simp]
theorem exceptBind_ok {α β ε : Type} (a : α) (f : α → Except ε β) :
    (Except.ok a >>= f) = f a := rfl

@[simp]
theorem exceptBind_error {α β ε : Type} (e : ε) (f : α → Except ε β) :
    ((Except.error e : Except ε α) >>= f) = Except.error e := rfl

@[simp]
theorem exceptPure_eq {α ε : Type} (a : α) :
    (pure a : Except ε α) = Except.ok a := rfl

/-! Inversion of the deferred validator. -/

theorem validate_ok_inv (q : ValidateQueries) (st st2 : Storage) (r2 : Response)
    (h : validate_instantiated_account q st = .ok (st2, r2)) :
    ∃ c, st.context = some c ∧
      r2 = Response.new "create_account"
        [("account", accountIdToString c.account_id),
         ("manager_address", addrToString c.account_base.manager),
         ("proxy_address", addrToString c.account_base.proxy)] ∧
      (c.account_id.isLocal = true →
        c.account_id.seq + 1 < UINT32_BOUND ∧
        st2 = { st with context := none,
                        local_account_sequence := some (c.account_id.seq + 1) }) ∧
      (c.account_id.isLocal = false → st2 = { st with context := none }) := by
  cases hc : st.context with
  | none =>
    rw [validate_instantiated_account] at h
    rw [hc] at h
    simp at h
  | some c =>
    rw [validate_instantiated_account] at h
    rw [hc] at h
    simp only [exceptBind_ok] at h
    cases hv1 : q.assertModuleDataValidity c.manager_module c.account_base.manager with
    | error e => rw [hv1] at h; simp at h
    | ok u1 =>
      rw [hv1] at h
      simp only [exceptBind_ok] at h
      cases hv2 : q.assertModuleDataValidity c.proxy_module c.account_base.proxy with
      | error e => rw [hv2] at h; simp at h
      | ok u2 =>
        rw [hv2] at h
        simp only [exceptBind_ok] at h
        refine ⟨c, rfl, ?_⟩
        cases hl : c.account_id.isLocal with
        | true =>
          rw [hl] at h
          simp only [if_true] at h
          cases hadd : checked_add_one c.account_id.seq with
          | error e => rw [hadd] at h; simp at h
          | ok nextSeq =>
            rw [hadd] at h
            simp only [exceptBind_ok, Except.ok.injEq, Prod.mk.injEq] at h
            obtain ⟨hst, hr⟩ := h
            have hbound : c.account_id.seq + 1 < UINT32_BOUND := by
              by_cases hb : c.account_id.seq + 1 < UINT32_BOUND
              · exact hb
              · rw [checked_add_one, if_neg hb] at hadd; cases hadd
            have hnext : nextSeq = c.account_id.seq + 1 := by
              rw [checked_add_one, if_pos hbound] at hadd
              cases hadd; rfl
            subst hnext
            refine ⟨hr.symm, fun _ => ⟨hbound, hst.symm⟩, fun hh => ?_⟩
            simp at hh
        | false =>
          rw [hl] at h
          simp only [Bool.false_eq_true, if_false, exceptBind_ok, Except.ok.injEq,
            Prod.mk.injEq] at h
          obtain ⟨hst, hr⟩ := h
          refine ⟨hr.symm, fun hh => ?_, fun _ => hst.symm⟩
          simp at hh

/-! Identifier allocation and resolution facts. -/

theorem AccountId.isLocal_iff (aid : AccountId) :
    aid.isLocal = true ↔ aid.trace = .localTrace := by
  obtain ⟨s, tr⟩ := aid
  cases tr <;> simp [AccountId.isLocal]

/-- C4. `generate_new_local_account_id` reads the persisted next-sequence
counter (default 0 when unset) and returns `{sequence: next, origin: Local}`
without modifying any storage (the embedding returns only the identifier);
hence two calls on the same storage return the same identifier.  When the next
sequence equals the reserved bootstrap value, a caller without the owner
capability fails with the authorization error. -/
theorem generate_new_local_account_id_spec (st : Storage) (sender : Addr) :
    generate_new_local_account_id st sender =
      if st.local_account_sequence.getD 0 = ABSTRACT_ACCOUNT_SEQ ∧
          st.owner ≠ some sender
      then .error .notOwner
      else .ok ⟨st.local_account_sequence.getD 0, .localTrace⟩ := by
  simp only [generate_new_local_account_id]
  by_cases h0 : st.local_account_sequence.getD 0 = ABSTRACT_ACCOUNT_SEQ
  · rw [if_pos h0]
    by_cases how : st.owner = some sender
    · rw [assert_owner, if_pos how]
      simp [h0, how, AccountId.new, AccountTrace.verify]
    · rw [assert_owner, if_neg how]
      simp [h0, how]
  · rw [if_neg h0]
    simp [h0, AccountId.new, AccountTrace.verify]

theorem resolve_account_id_ok_of_some (st : Storage) (sender : Addr)
    (a aid : AccountId)
    (h : resolve_account_id st sender (some a) = .ok aid) : aid = a := by
  rw [resolve_account_id] at h
  by_cases hl : a.isLocal
  · rw [if_pos hl] at h
    cases hg : generate_new_local_account_id st sender with
    | error e => rw [hg] at h; simp at h
    | ok g =>
      rw [hg] at h
      simp only [exceptBind_ok] at h
      by_cases hga : g = a
      · rw [if_pos hga] at h
        simp only [exceptPure_eq, Except.ok.injEq] at h
        rw [← h, hga]
      · rw [if_neg hga] at h
        simp [throw, throwThe, MonadExceptOf.throw] at h
  · rw [if_neg hl] at h
    cases hh : st.config.ibc_host with
    | none => rw [hh] at h; simp at h
    | some host =>
      rw [hh] at h
      simp only [exceptBind_ok] at h
      by_cases hs : sender = host
      · rw [if_pos hs] at h
        simp only [exceptPure_eq, exceptBind_ok] at h
        cases hv : AccountTrace.verify_remote a.trace with
        | error e => rw [hv] at h; simp at h
        | ok u =>
          rw [hv] at h
          simp only [exceptBind_ok, exceptPure_eq, Except.ok.injEq] at h
          exact h.symm
      · rw [if_neg hs] at h
        simp [throw, throwThe, MonadExceptOf.throw] at h

theorem resolve_account_id_ok_seq (st : Storage) (sender : Addr)
    (o : Option AccountId) (aid : AccountId)
    (h : resolve_account_id st sender o = .ok aid) :
    aid.trace = .localTrace → aid.seq = st.local_account_sequence.getD 0 := by
  intro htr
  cases o with
  | none =>
    rw [resolve_account_id, generate_new_local_account_id_spec] at h
    split at h
    · cases h
    · cases h; rfl
  | some a =>
    have haid : aid = a := resolve_account_id_ok_of_some st sender a aid h
    subst haid
    rw [resolve_account_id] at h
    by_cases hl : aid.isLocal
    · rw [if_pos hl, generate_new_local_account_id_spec] at h
      split at h
      · simp at h
      · simp only [exceptBind_ok] at h
        split at h
        · next hga =>
          rw [← hga]
        · simp [throw, throwThe, MonadExceptOf.throw] at h
    · exact absurd ((AccountId.isLocal_iff aid).mpr htr) hl

/-! Inversion of the creation orchestrator. -/

/-- The `AccountBase` predicted by `execute_create_account`: both addresses
derived by `instantiate2_address` from the factory's canonical address, the
respective code checksum, and the salt generated from the account id. -/
def predicted_base (q : ExtQueries) (pchk mchk : List Nat)
    (aid : AccountId) : AccountBase :=
  ⟨instantiate2_address mchk (addrCanonicalize q.contractAddress)
      (generate_instantiate_salt aid),
   instantiate2_address pchk (addrCanonicalize q.contractAddress)
      (generate_instantiate_salt aid)⟩

theorem execute_ok_inv (q : ExtQueries) (st : Storage) (inp : CreateInputs)
    (st1 : Storage) (resp : Response)
    (h : execute_create_account q st inp = .ok (st1, resp)) :
    ∃ gov aid pm mm fi fns dep residual pcid mcid pchk mchk,
      q.verifyGov inp.governance = .ok gov ∧
      check_sub_account inp.sender gov = .ok () ∧
      resolve_account_id st inp.sender inp.account_id = .ok aid ∧
      q.proxyModule = .ok pm ∧
      q.managerModule = .ok mm ∧
      q.simulateInstallCost = .ok fi ∧
      namespace_fee_funds q inp = .ok fns ∧
      Coins.tryFromList inp.funds = some dep ∧
      partition_funds dep (fi ++ fns) fi inp.funds = .ok residual ∧
      resolve_code_ids pm mm = .ok (pcid, mcid) ∧
      q.checksumOf pcid = .ok pchk ∧
      q.checksumOf mcid = .ok mchk ∧
      st1 = { st with context := some ⟨aid, predicted_base q pchk mchk aid, mm, pm⟩ } ∧
      resp = creation_response st.config inp gov aid
          (predicted_base q pchk mchk aid)
          fns residual fi pcid mcid (generate_instantiate_salt aid) := by
  simp only [execute_create_account] at h
  cases hgov : q.verifyGov inp.governance with
  | error e => rw [hgov] at h; simp at h
  | ok gov =>
  rw [hgov] at h
  simp only [exceptBind_ok] at h
  cases hsub : check_sub_account inp.sender gov with
  | error e => rw [hsub] at h; simp at h
  | ok u =>
  obtain ⟨⟩ := u
  rw [hsub] at h
  simp only [exceptBind_ok] at h
  cases haid : resolve_account_id st inp.sender inp.account_id with
  | error e => rw [haid] at h; simp at h
  | ok aid =>
  rw [haid] at h
  simp only [exceptBind_ok] at h
  cases hpm : q.proxyModule with
  | error e => rw [hpm] at h; simp at h
  | ok pm =>
  rw [hpm] at h
  simp only [exceptBind_ok] at h
  cases hmm : q.managerModule with
  | error e => rw [hmm] at h; simp at h
  | ok mm =>
  rw [hmm] at h
  simp only [exceptBind_ok] at h
  cases hfi : q.simulateInstallCost with
  | error e => rw [hfi] at h; simp at h
  | ok fi =>
  rw [hfi] at h
  simp only [exceptBind_ok] at h
  cases hfns : namespace_fee_funds q inp with
  | error e => rw [hfns] at h; simp at h
  | ok fns =>
  rw [hfns] at h
  simp only [exceptBind_ok] at h
  cases hdep : Coins.tryFromList inp.funds with
  | none => rw [hdep] at h; simp at h
  | some dep =>
  rw [hdep] at h
  simp only [exceptBind_ok] at h
  cases hpart : partition_funds dep (fi ++ fns) fi inp.funds with
  | error e => rw [hpart] at h; simp at h
  | ok residual =>
  rw [hpart] at h
  simp only [exceptBind_ok] at h
  cases hcid : resolve_code_ids pm mm with
  | error e => rw [hcid] at h; simp at h
  | ok cids =>
  obtain ⟨pcid, mcid⟩ := cids
  rw [hcid] at h
  simp only [exceptBind_ok] at h
  cases hpchk : q.checksumOf pcid with
  | error e => rw [hpchk] at h; simp at h
  | ok pchk =>
  rw [hpchk] at h
  simp only [exceptBind_ok] at h
  cases hmchk : q.checksumOf mcid with
  | error e => rw [hmchk] at h; simp at h
  | ok mchk =>
  rw [hmchk] at h
  simp only [exceptBind_ok, Except.ok.injEq, Prod.mk.injEq] at h
  obtain ⟨hst, hresp⟩ := h
  exact ⟨gov, aid, pm, mm, fi, fns, dep, residual, pcid, mcid, pchk, mchk,
    rfl, hsub, rfl, rfl, rfl, rfl, rfl, rfl, hpart, hcid, hpchk, hmchk,
    hst.symm, hresp.symm⟩

/-- C6. The deferred validator requires a `Context` and deletes it on load:
after any successful run the context slot is empty, and a second invocation on
the resulting storage fails with the internal-consistency (context-not-found)
error; the error outcome carries no storage, so no counter update occurs. -/
theorem context_single_use (vq vq2 : ValidateQueries) (st st2 : Storage)
    (r : Response)
    (h : validate_instantiated_account vq st = .ok (st2, r)) :
    st2.context = none ∧
    validate_instantiated_account vq2 st2 = .error .contextNotFound := by
  obtain ⟨c, hc, hr, hlocal, hnonlocal⟩ := validate_ok_inv vq st st2 r h
  have hctx : st2.context = none := by
    cases hl : c.account_id.isLocal with
    | true => rw [(hlocal hl).2]
    | false => rw [hnonlocal hl]
  refine ⟨hctx, ?_⟩
  simp only [validate_instantiated_account, hctx, exceptBind_error]

/-- C5. A confirmed creation run (successful `execute_create_account` followed
by a successful `validate_instantiated_account`) increments the persisted local
sequence counter by exactly one (with the checked `u32` bound holding) when the
created identifier's origin is local, and leaves the counter unchanged when the
origin is remote.  An aborted run returns only an error and hence changes no
storage at all in the embedding. -/
theorem confirmed_creation_counter (q : ExtQueries) (vq : ValidateQueries)
    (st : Storage) (inp : CreateInputs) (st1 : Storage) (r1 : Response)
    (st2 : Storage) (r2 : Response) (c : Context)
    (h1 : execute_create_account q st inp = .ok (st1, r1))
    (hc : st1.context = some c)
    (h2 : validate_instantiated_account vq st1 = .ok (st2, r2)) :
    (c.account_id.trace = .localTrace →
      c.account_id.seq + 1 < UINT32_BOUND ∧
      st2.local_account_sequence =
        some (st.local_account_sequence.getD 0 + 1)) ∧
    (c.account_id.trace ≠ .localTrace →
      st2.local_account_sequence = st.local_account_sequence) := by
  obtain ⟨gov, aid, pm, mm, fi, fns, dep, residual, pcid, mcid, pchk, mchk,
    hgov, hsub, hres, hpm, hmm, hfi, hfns, hdep, hpart, hcid, hpchk, hmchk,
    hst1, hresp⟩ := execute_ok_inv q st inp st1 r1 h1
  have hcc : c = ⟨aid, predicted_base q pchk mchk aid, mm, pm⟩ := by
    rw [hst1] at hc
    simp only [Option.some.injEq] at hc
    exact hc.symm
  have hseq1 : st1.local_account_sequence = st.local_account_sequence := by
    rw [hst1]
  obtain ⟨c', hc', hr2, hlocal, hnonlocal⟩ := validate_ok_inv vq st1 st2 r2 h2
  rw [hc] at hc'
  have hcc' : c' = c := by
    simp only [Option.some.injEq] at hc'
    exact hc'.symm
  rw [hcc'] at hlocal hnonlocal
  have haidc : c.account_id = aid := by rw [hcc]
  constructor
  · intro htr
    have hl : c.account_id.isLocal = true := (AccountId.isLocal_iff _).mpr htr
    obtain ⟨hbound, hst2⟩ := hlocal hl
    have hseq : aid.seq = st.local_account_sequence.getD 0 :=
      resolve_account_id_ok_seq st inp.sender inp.account_id aid hres
        (haidc ▸ htr)
    refine ⟨hbound, ?_⟩
    rw [hst2]
    simp only [haidc, hseq, hseq1]
  · intro htr
    have hl : c.account_id.isLocal = false := by
      cases hb : c.account_id.isLocal with
      | true => exact absurd ((AccountId.isLocal_iff _).mp hb) htr
      | false => rfl
    have hst2 := hnonlocal hl
    rw [hst2]
    simpa using hseq1

/-- C2. For every confirmed creation run, the manager (controller) and proxy
addresses recorded in the `AccountBase` of the saved `Context`, and reported by
the confirmation event of the deferred validator, equal the addresses
recomputed by the instantiate2 derivation from the two code checksums and the
salt generated purely from the account identifier; the salt and hence the
address pair are a pure function of the identifier. -/
theorem create_account_addresses_deterministic (q : ExtQueries)
    (vq : ValidateQueries) (st : Storage) (inp : CreateInputs) (st1 : Storage)
    (r1 : Response) (st2 : Storage) (r2 : Response) (c : Context)
    (pm mm : Module) (pcid mcid : Nat) (pchk mchk : List Nat)
    (h1 : execute_create_account q st inp = .ok (st1, r1))
    (hc : st1.context = some c)
    (h2 : validate_instantiated_account vq st1 = .ok (st2, r2))
    (hpm : q.proxyModule = .ok pm) (hmm : q.managerModule = .ok mm)
    (hcid : resolve_code_ids pm mm = .ok (pcid, mcid))
    (hpchk : q.checksumOf pcid = .ok pchk)
    (hmchk : q.checksumOf mcid = .ok mchk) :
    c.account_base = predicted_base q pchk mchk c.account_id ∧
    r2.attributes =
      [("account", accountIdToString c.account_id),
       ("manager_address", addrToString (instantiate2_address mchk
          (addrCanonicalize q.contractAddress)
          (generate_instantiate_salt c.account_id))),
       ("proxy_address", addrToString (instantiate2_address pchk
          (addrCanonicalize q.contractAddress)
          (generate_instantiate_salt c.account_id)))] := by
  obtain ⟨gov, aid, pm', mm', fi, fns, dep, residual, pcid', mcid', pchk', mchk',
    hgov, hsub, hres, hpm', hmm', hfi, hfns, hdep, hpart, hcid', hpchk', hmchk',
    hst1, hresp⟩ := execute_ok_inv q st inp st1 r1 h1
  rw [hpm] at hpm'
  injection hpm' with epm
  subst epm
  rw [hmm] at hmm'
  injection hmm' with emm
  subst emm
  rw [hcid] at hcid'
  injection hcid' with ecid
  obtain ⟨ep, em⟩ := Prod.mk.injEq .. ▸ ecid
  · subst ep
    subst em
    rw [hpchk] at hpchk'
    injection hpchk' with epchk
    subst epchk
    rw [hmchk] at hmchk'
    injection hmchk' with emchk
    subst emchk
    have hcc : c = ⟨aid, predicted_base q pchk mchk aid, mm, pm⟩ := by
      rw [hst1] at hc
      simp only [Option.some.injEq] at hc
      exact hc.symm
    obtain ⟨c', hc', hr2, hlocal, hnonlocal⟩ := validate_ok_inv vq st1 st2 r2 h2
    rw [hc] at hc'
    have hcc' : c' = c := by
      simp only [Option.some.injEq] at hc'
      exact hc'.symm
    rw [hcc'] at hr2
    constructor
    · rw [hcc]
    · rw [hr2, hcc]
      rfl

/-- C3. Every successful `execute_create_account` emits exactly three
operations, in order: (1) register the new `AccountBase` with the registry
under the account id and optional namespace, forwarding the namespace-fee
funds; (2) instantiate the proxy at its predicted address with the residual
partitioned funds and the manager (controller) address as admin; (3)
instantiate the manager at its predicted address with the installation funds,
as a reply-on-success submessage that triggers the deferred validator. -/
theorem create_account_three_ops (q : ExtQueries) (st : Storage)
    (inp : CreateInputs) (st1 : Storage) (resp : Response)
    (h : execute_create_account q st inp = .ok (st1, resp)) :
    ∃ gov aid base fns residual fi pcid mcid mm pm,
      namespace_fee_funds q inp = .ok fns ∧
      q.simulateInstallCost = .ok fi ∧
      (∃ dep, Coins.tryFromList inp.funds = some dep ∧
        partition_funds dep (fi ++ fns) fi inp.funds = .ok residual) ∧
      st1.context = some ⟨aid, base, mm, pm⟩ ∧
      resp.messages =
        [SubMsg.new (CosmosMsg.wasmExecute st.config.version_control_contract
            fns (WasmPayload.addAccount aid base inp.ns)),
         SubMsg.new (CosmosMsg.wasmInstantiate2 pcid (coinsToVec residual)
            (some base.manager)
            ("Proxy of Account: " ++ accountIdToString aid)
            (WasmPayload.proxyInit aid
              (addrToString st.config.ans_host_contract)
              (addrToString base.manager) inp.base_asset)
            (generate_instantiate_salt aid)),
         SubMsg.replyOnSuccess (CosmosMsg.wasmInstantiate2 mcid fi
            (some base.manager)
            ("Manager of Account: " ++ accountIdToString aid)
            (WasmPayload.managerInit aid gov
              (addrToString st.config.version_control_contract)
              (addrToString st.config.module_factory_address)
              (addrToString base.proxy) inp.name inp.description inp.link
              inp.install_modules)
            (generate_instantiate_salt aid))
          CREATE_ACCOUNT_MANAGER_MSG_ID] := by
  obtain ⟨gov, aid, pm, mm, fi, fns, dep, residual, pcid, mcid, pchk, mchk,
    hgov, hsub, hres, hpm, hmm, hfi, hfns, hdep, hpart, hcid, hpchk, hmchk,
    hst1, hresp⟩ := execute_ok_inv q st inp st1 resp h
  refine ⟨gov, aid, predicted_base q pchk mchk aid, fns, residual, fi,
    pcid, mcid, mm, pm, hfns, hfi, ⟨dep, hdep, hpart⟩, ?_, ?_⟩
  · rw [hst1]
  · rw [hresp]
    rfl

/-! Error-propagation helpers for the orchestrator. -/

theorem execute_error_of_resolve (q : ExtQueries) (st : Storage)
    (inp : CreateInputs) (gov : GovernanceDetails) (e : AccountFactoryError)
    (hgov : q.verifyGov inp.governance = .ok gov)
    (hsub : check_sub_account inp.sender gov = .ok ())
    (hres : resolve_account_id st inp.sender inp.account_id = .error e) :
    execute_create_account q st inp = .error e := by
  simp only [execute_create_account, hgov, exceptBind_ok, hsub, hres,
    exceptBind_error]

theorem execute_error_of_code_ids (q : ExtQueries) (st : Storage)
    (inp : CreateInputs) (gov : GovernanceDetails) (aid : AccountId)
    (pm mm : Module) (fi fns : List Coin) (dep residual : CoinsMap)
    (e : AccountFactoryError)
    (hgov : q.verifyGov inp.governance = .ok gov)
    (hsub : check_sub_account inp.sender gov = .ok ())
    (hres : resolve_account_id st inp.sender inp.account_id = .ok aid)
    (hpm : q.proxyModule = .ok pm) (hmm : q.managerModule = .ok mm)
    (hfi : q.simulateInstallCost = .ok fi)
    (hfns : namespace_fee_funds q inp = .ok fns)
    (hdep : Coins.tryFromList inp.funds = some dep)
    (hpart : partition_funds dep (fi ++ fns) fi inp.funds = .ok residual)
    (hcid : resolve_code_ids pm mm = .error e) :
    execute_create_account q st inp = .error e := by
  simp only [execute_create_account, hgov, exceptBind_ok, hsub, hres, hpm, hmm,
    hfi, hfns, hdep, hpart, hcid, exceptBind_error]

theorem resolve_local_mismatch (st : Storage) (sender : Addr)
    (aid gid : AccountId)
    (hl : aid.isLocal = true)
    (hgen : generate_new_local_account_id st sender = .ok gid)
    (hne : gid ≠ aid) :
    resolve_account_id st sender (some aid) =
      .error (.expectedAccountIdFailed aid gid) := by
  simp only [resolve_account_id, hl, if_true, hgen, exceptBind_ok, if_neg hne]
  rfl

theorem resolve_remote_no_host (st : Storage) (sender : Addr) (aid : AccountId)
    (hl : aid.isLocal = false)
    (hhost : st.config.ibc_host = none) :
    resolve_account_id st sender (some aid) = .error .ibcHostNotSet := by
  simp only [resolve_account_id, hl, Bool.false_eq_true, if_false, hhost,
    exceptBind_error]

theorem resolve_remote_wrong_sender (st : Storage) (sender : Addr)
    (aid : AccountId) (host : Addr)
    (hl : aid.isLocal = false)
    (hhost : st.config.ibc_host = some host)
    (hs : sender ≠ host) :
    resolve_account_id st sender (some aid) =
      .error (.senderNotIbcHost sender host) := by
  simp only [resolve_account_id, hl, Bool.false_eq_true, if_false, hhost,
    exceptBind_ok, if_neg hs]
  rfl

theorem resolve_remote_bad_trace (st : Storage) (sender : Addr)
    (aid : AccountId) (host : Addr) (e : AccountFactoryError)
    (hl : aid.isLocal = false)
    (hhost : st.config.ibc_host = some host)
    (hs : sender = host)
    (hv : aid.trace.verify_remote = .error e) :
    resolve_account_id st sender (some aid) = .error e := by
  simp only [resolve_account_id, hl, Bool.false_eq_true, if_false, hhost,
    exceptBind_ok, if_pos hs, exceptPure_eq, hv, exceptBind_error]

theorem resolve_remote_ok (st : Storage) (sender : Addr)
    (aid : AccountId) (host : Addr)
    (hl : aid.isLocal = false)
    (hhost : st.config.ibc_host = some host)
    (hs : sender = host)
    (hv : aid.trace.verify_remote = .ok ()) :
    resolve_account_id st sender (some aid) = .ok aid := by
  simp only [resolve_account_id, hl, Bool.false_eq_true, if_false, hhost,
    exceptBind_ok, if_pos hs, exceptPure_eq, hv]

/-- C7. When a local-origin `account_id` is supplied, the orchestrator
recomputes the next local identifier; on disagreement it fails with the
identifier-mismatch error reporting the supplied (predicted) and recomputed
(actual) identifiers.  The error return carries no storage, so no state is
mutated. -/
theorem supplied_local_id_mismatch (q : ExtQueries) (st : Storage)
    (inp : CreateInputs) (gov : GovernanceDetails) (aid gid : AccountId)
    (hgov : q.verifyGov inp.governance = .ok gov)
    (hsub : check_sub_account inp.sender gov = .ok ())
    (haid : inp.account_id = some aid)
    (hl : aid.isLocal = true)
    (hgen : generate_new_local_account_id st inp.sender = .ok gid)
    (hne : gid ≠ aid) :
    execute_create_account q st inp =
      .error (.expectedAccountIdFailed aid gid) :=
  execute_error_of_resolve q st inp gov _ hgov hsub
    (haid ▸ resolve_local_mismatch st inp.sender aid gid hl hgen hne)

/-- C8. When a non-local (remote-origin) `account_id` is supplied and a
gateway is configured: a caller other than the gateway fails with the
authorization error naming sender and gateway; a caller equal to the gateway
with a trace that fails remote verification fails with that trace-validation
error; and any successful run uses the supplied identifier as given in the
persisted `Context`. -/
theorem supplied_remote_id_checks (q : ExtQueries) (st : Storage)
    (inp : CreateInputs) (gov : GovernanceDetails) (aid : AccountId)
    (host : Addr)
    (hgov : q.verifyGov inp.governance = .ok gov)
    (hsub : check_sub_account inp.sender gov = .ok ())
    (haid : inp.account_id = some aid)
    (hl : aid.isLocal = false)
    (hhost : st.config.ibc_host = some host) :
    (inp.sender ≠ host →
      execute_create_account q st inp =
        .error (.senderNotIbcHost inp.sender host)) ∧
    (∀ e, aid.trace.verify_remote = .error e → inp.sender = host →
      execute_create_account q st inp = .error e) ∧
    (∀ st1 resp, execute_create_account q st inp = .ok (st1, resp) →
      ∃ base mm pm, st1.context = some ⟨aid, base, mm, pm⟩) := by
  refine ⟨?_, ?_, ?_⟩
  · intro hs
    exact execute_error_of_resolve q st inp gov _ hgov hsub
      (haid ▸ resolve_remote_wrong_sender st inp.sender aid host hl hhost hs)
  · intro e hv hs
    exact execute_error_of_resolve q st inp gov _ hgov hsub
      (haid ▸ resolve_remote_bad_trace st inp.sender aid host e hl hhost hs hv)
  · intro st1 resp h
    obtain ⟨gov2, aid2, pm, mm, fi, fns, dep, residual, pcid, mcid, pchk, mchk,
      hgov2, hsub2, hres2, hpm, hmm, hfi, hfns, hdep, hpart, hcid, hpchk,
      hmchk, hst1, hresp⟩ := execute_ok_inv q st inp st1 resp h
    rw [haid] at hres2
    have he : aid2 = aid :=
      resolve_account_id_ok_of_some st inp.sender aid aid2 hres2
    subst he
    exact ⟨predicted_base q pchk mchk aid2, mm, pm, by rw [hst1]⟩

/-- C10. When a non-local `account_id` is supplied while no remote-origin
gateway is configured, the call fails with the dedicated gateway-not-set
error, for every caller — before any caller-authorization comparison. -/
theorem remote_id_without_gateway (q : ExtQueries) (st : Storage)
    (inp : CreateInputs) (gov : GovernanceDetails) (aid : AccountId)
    (hgov : q.verifyGov inp.governance = .ok gov)
    (hsub : check_sub_account inp.sender gov = .ok ())
    (haid : inp.account_id = some aid)
    (hl : aid.isLocal = false)
    (hhost : st.config.ibc_host = none) :
    execute_create_account q st inp = .error .ibcHostNotSet :=
  execute_error_of_resolve q st inp gov _ hgov hsub
    (haid ▸ resolve_remote_no_host st inp.sender aid hl hhost)

theorem resolve_code_ids_error (pm mm : Module)
    (hbad : (∀ k, pm.reference ≠ .accountBase k) ∨
            (∀ k, mm.reference ≠ .accountBase k)) :
    resolve_code_ids pm mm = .error (.wrongModuleKind pm.info "account_base") := by
  rw [resolve_code_ids]
  cases hp : pm.reference <;> cases hm : mm.reference <;>
    first
      | rfl
      | (cases hbad with
         | inl hb => exact absurd hp (hb _)
         | inr hb => exact absurd hm (hb _))

/-- C9 (amended). When either resolved module is not of the account-base
kind, `execute_create_account` fails with a wrong-module-kind error that
names the proxy module's identifier (the source always reports the proxy
module, even when the manager module is the offender) and the expected kind
string "account_base". -/
theorem wrong_module_kind_error (q : ExtQueries) (st : Storage)
    (inp : CreateInputs) (gov : GovernanceDetails) (aid : AccountId)
    (pm mm : Module) (fi fns : List Coin) (dep residual : CoinsMap)
    (hgov : q.verifyGov inp.governance = .ok gov)
    (hsub : check_sub_account inp.sender gov = .ok ())
    (hres : resolve_account_id st inp.sender inp.account_id = .ok aid)
    (hpm : q.proxyModule = .ok pm) (hmm : q.managerModule = .ok mm)
    (hfi : q.simulateInstallCost = .ok fi)
    (hfns : namespace_fee_funds q inp = .ok fns)
    (hdep : Coins.tryFromList inp.funds = some dep)
    (hpart : partition_funds dep (fi ++ fns) fi inp.funds = .ok residual)
    (hbad : (∀ k, pm.reference ≠ .accountBase k) ∨
            (∀ k, mm.reference ≠ .accountBase k)) :
    execute_create_account q st inp =
      .error (.wrongModuleKind pm.info "account_base") :=
  execute_error_of_code_ids q st inp gov aid pm mm fi fns dep residual _
    hgov hsub hres hpm hmm hfi hfns hdep hpart (resolve_code_ids_error pm mm hbad)

/-- C9 counterexample. With the proxy module correctly of the account-base
kind and the manager module of a different kind, the error names the proxy
module's identifier, not the offending manager module's identifier — refuting
the claim that the error includes the offending module's identifier. -/
theorem wrong_module_kind_cex :
    execute_create_account
      { verifyGov := fun g => .ok g
        proxyModule := .ok ⟨"abstract:proxy", .accountBase 10⟩
        managerModule := .ok ⟨"abstract:manager", .app (.named "x")⟩
        simulateInstallCost := .ok []
        namespaceFee := .ok []
        checksumOf := fun cid => .ok [cid, 7]
        contractAddress := .named "factory" }
      { config := { ans_host_contract := .named "ans"
                    version_control_contract := .named "vc"
                    module_factory_address := .named "mf"
                    ibc_host := some (.named "host") }
        local_account_sequence := some 5
        context := none
        owner := some (.named "owner") }
      { sender := .named "alice"
        funds := []
        governance := .monarchy (.named "alice")
        name := "acc"
        description := none
        link := none
        ns := none
        base_asset := none
        install_modules := []
        account_id := none } =
      .error (.wrongModuleKind "abstract:proxy" "account_base") ∧
    ("abstract:proxy" : String) ≠ "abstract:manager" := by
  constructor
  · rfl
  · decide

/-- C1 (amended). Fund partitioning of `execute_create_account`: for every
deposit whose conversion to the coin map succeeds (no duplicate
denominations), if the deposit covers installation cost plus namespace cost on
every denomination, partitioning succeeds and the residual forwarded to the
proxy equals deposit minus installation cost minus namespace cost on every
denomination; if any denomination falls short, partitioning fails with a
fee-mismatch error reporting the installation-cost multiset (the source omits
the namespace cost from the reported expected funds) and the funds that were
sent; the transient map is discarded on failure, so no partial subtraction is
visible. -/
theorem fund_partition_correct (deposit install nsFee : List Coin)
    (dep : CoinsMap)
    (hdep : Coins.tryFromList deposit = some dep) :
    ((∀ x, coinsTotal install x + coinsTotal nsFee x ≤ coinsTotal deposit x) →
      ∃ r, partition_funds dep (install ++ nsFee) install deposit = .ok r ∧
        ∀ x, Coins.amountOf r x =
          coinsTotal deposit x - (coinsTotal install x + coinsTotal nsFee x)) ∧
    (∀ x, coinsTotal deposit x < coinsTotal install x + coinsTotal nsFee x →
      partition_funds dep (install ++ nsFee) install deposit =
        .error (.feeMismatch install deposit)) := by
  have hnd : Coins.keysNodup dep := Coins.tryFromList_keysNodup hdep
  have hamt : ∀ x, Coins.amountOf dep x = coinsTotal deposit x :=
    fun x => Coins.amountOf_tryFromList hdep x
  constructor
  · intro hle
    obtain ⟨r, hr, hrnd, hramt⟩ :=
      partition_funds_ok (install ++ nsFee) dep install deposit hnd
        (fun x => by rw [coinsTotal_append, hamt]; exact hle x)
    exact ⟨r, hr, fun x => by rw [hramt x, hamt, coinsTotal_append]⟩
  · intro x hlt
    exact partition_funds_fail (install ++ nsFee) dep install deposit hnd x
      (by rw [coinsTotal_append, hamt]; exact hlt)

/-- C1 counterexample. With an empty deposit, an empty installation cost and a
namespace cost of 5 "token", the partitioning fails — but the fee-mismatch
error reports the installation-cost list (empty; total 0 for "token") as the
expected funds, not the expected total of 5 "token": the reported expected
funds are not the expected total. -/
theorem fund_partition_report_cex :
    Coins.tryFromList [] = some [] ∧
    partition_funds [] ([] ++ [⟨"token", 5⟩]) [] [] =
      .error (.feeMismatch [] []) ∧
    coinsTotal [] "token" = 0 ∧
    coinsTotal ([] ++ [(⟨"token", 5⟩ : Coin)]) "token" = 5 := by
  refine ⟨rfl, rfl, rfl, by decide⟩

/-! Concrete demonstration runs used by the witnesses. -/

def demoConfig : Config :=
  { ans_host_contract := .named "ans"
    version_control_contract := .named "vc"
    module_factory_address := .named "mf"
    ibc_host := some (.named "host") }

def demoStorage : Storage :=
  { config := demoConfig
    local_account_sequence := some 5
    context := none
    owner := some (.named "owner") }

def demoProxyModule : Module := ⟨"abstract:proxy", .accountBase 10⟩

def demoManagerModule : Module := ⟨"abstract:manager", .accountBase 11⟩

def demoQueries : ExtQueries :=
  { verifyGov := fun g => .ok g
    proxyModule := .ok demoProxyModule
    managerModule := .ok demoManagerModule
    simulateInstallCost := .ok [⟨"tokenA", 10⟩]
    namespaceFee := .ok []
    checksumOf := fun cid => .ok [cid, 7]
    contractAddress := .named "factory" }

def demoValidate : ValidateQueries := ⟨fun _ _ => .ok ()⟩

def demoInputs : CreateInputs :=
  { sender := .named "alice"
    funds := [⟨"tokenA", 10⟩]
    governance := .monarchy (.named "alice")
    name := "acc"
    description := none
    link := none
    ns := none
    base_asset := none
    install_modules := []
    account_id := none }

def demoRun1 : Storage × Response :=
  (execute_create_account demoQueries demoStorage demoInputs).toOption.getD
    (demoStorage, Response.new "none" [])

def demoContext : Context :=
  demoRun1.fst.context.getD
    ⟨⟨0, .localTrace⟩, ⟨.named "x", .named "x"⟩, demoManagerModule,
     demoProxyModule⟩

def demoRun2 : Storage × Response :=
  (validate_instantiated_account demoValidate demoRun1.fst).toOption.getD
    (demoStorage, Response.new "none" [])

theorem fund_partition_correct_witness :
    ((∀ x, coinsTotal [⟨"tokenA", 7⟩] x + coinsTotal [⟨"tokenA", 2⟩] x ≤
        coinsTotal [⟨"tokenA", 10⟩] x) →
      ∃ r, partition_funds [("tokenA", 10)]
          ([⟨"tokenA", 7⟩] ++ [⟨"tokenA", 2⟩]) [⟨"tokenA", 7⟩]
          [⟨"tokenA", 10⟩] = .ok r ∧
        ∀ x, Coins.amountOf r x = coinsTotal [⟨"tokenA", 10⟩] x -
          (coinsTotal [⟨"tokenA", 7⟩] x + coinsTotal [⟨"tokenA", 2⟩] x)) ∧
    (∀ x, coinsTotal [⟨"tokenA", 10⟩] x < coinsTotal [⟨"tokenA", 7⟩] x +
        coinsTotal [⟨"tokenA", 2⟩] x →
      partition_funds [("tokenA", 10)] ([⟨"tokenA", 7⟩] ++ [⟨"tokenA", 2⟩])
        [⟨"tokenA", 7⟩] [⟨"tokenA", 10⟩] =
        .error (.feeMismatch [⟨"tokenA", 7⟩] [⟨"tokenA", 10⟩])) :=
  fund_partition_correct [⟨"tokenA", 10⟩] [⟨"tokenA", 7⟩] [⟨"tokenA", 2⟩]
    [("tokenA", 10)] (by rfl)

theorem create_account_addresses_deterministic_witness :
    demoContext.account_base =
      predicted_base demoQueries [10, 7] [11, 7] demoContext.account_id ∧
    demoRun2.snd.attributes =
      [("account", accountIdToString demoContext.account_id),
       ("manager_address", addrToString (instantiate2_address [11, 7]
          (addrCanonicalize demoQueries.contractAddress)
          (generate_instantiate_salt demoContext.account_id))),
       ("proxy_address", addrToString (instantiate2_address [10, 7]
          (addrCanonicalize demoQueries.contractAddress)
          (generate_instantiate_salt demoContext.account_id)))] :=
  create_account_addresses_deterministic demoQueries demoValidate demoStorage
    demoInputs demoRun1.fst demoRun1.snd demoRun2.fst demoRun2.snd demoContext
    demoProxyModule demoManagerModule 10 11 [10, 7] [11, 7]
    (by rfl) (by rfl) (by rfl) (by rfl) (by rfl) (by rfl) (by rfl) (by rfl)

theorem create_account_three_ops_witness :
    ∃ gov aid base fns residual fi pcid mcid mm pm,
      namespace_fee_funds demoQueries demoInputs = .ok fns ∧
      demoQueries.simulateInstallCost = .ok fi ∧
      (∃ dep, Coins.tryFromList demoInputs.funds = some dep ∧
        partition_funds dep (fi ++ fns) fi demoInputs.funds = .ok residual) ∧
      demoRun1.fst.context = some ⟨aid, base, mm, pm⟩ ∧
      demoRun1.snd.messages =
        [SubMsg.new (CosmosMsg.wasmExecute
            demoStorage.config.version_control_contract fns
            (WasmPayload.addAccount aid base demoInputs.ns)),
         SubMsg.new (CosmosMsg.wasmInstantiate2 pcid (coinsToVec residual)
            (some base.manager)
            ("Proxy of Account: " ++ accountIdToString aid)
            (WasmPayload.proxyInit aid
              (addrToString demoStorage.config.ans_host_contract)
              (addrToString base.manager) demoInputs.base_asset)
            (generate_instantiate_salt aid)),
         SubMsg.replyOnSuccess (CosmosMsg.wasmInstantiate2 mcid fi
            (some base.manager)
            ("Manager of Account: " ++ accountIdToString aid)
            (WasmPayload.managerInit aid gov
              (addrToString demoStorage.config.version_control_contract)
              (addrToString demoStorage.config.module_factory_address)
              (addrToString base.proxy) demoInputs.name demoInputs.description
              demoInputs.link demoInputs.install_modules)
            (generate_instantiate_salt aid))
          CREATE_ACCOUNT_MANAGER_MSG_ID] :=
  create_account_three_ops demoQueries demoStorage demoInputs demoRun1.fst
    demoRun1.snd (by rfl)

theorem confirmed_creation_counter_witness :
    (demoContext.account_id.trace = .localTrace →
      demoContext.account_id.seq + 1 < UINT32_BOUND ∧
      demoRun2.fst.local_account_sequence =
        some (demoStorage.local_account_sequence.getD 0 + 1)) ∧
    (demoContext.account_id.trace ≠ .localTrace →
      demoRun2.fst.local_account_sequence =
        demoStorage.local_account_sequence) :=
  confirmed_creation_counter demoQueries demoValidate demoStorage demoInputs
    demoRun1.fst demoRun1.snd demoRun2.fst demoRun2.snd demoContext
    (by rfl) (by rfl) (by rfl)

theorem context_single_use_witness :
    demoRun2.fst.context = none ∧
    validate_instantiated_account demoValidate demoRun2.fst =
      .error .contextNotFound :=
  context_single_use demoValidate demoValidate demoRun1.fst demoRun2.fst
    demoRun2.snd (by rfl)

def demoInputsMismatch : CreateInputs :=
  { demoInputs with account_id := some ⟨9, .localTrace⟩ }

theorem supplied_local_id_mismatch_witness :
    execute_create_account demoQueries demoStorage demoInputsMismatch =
      .error (.expectedAccountIdFailed ⟨9, .localTrace⟩ ⟨5, .localTrace⟩) :=
  supplied_local_id_mismatch demoQueries demoStorage demoInputsMismatch
    (.monarchy (.named "alice")) ⟨9, .localTrace⟩ ⟨5, .localTrace⟩
    (by rfl) (by rfl) (by rfl) (by rfl) (by rfl) (by decide)

def demoInputsRemote : CreateInputs :=
  { demoInputs with
      sender := .named "mallory"
      account_id := some ⟨7, .remote ["osmosis"]⟩ }

theorem supplied_remote_id_checks_witness :
    execute_create_account demoQueries demoStorage demoInputsRemote =
      .error (.senderNotIbcHost (.named "mallory") (.named "host")) :=
  (supplied_remote_id_checks demoQueries demoStorage demoInputsRemote
    (.monarchy (.named "alice")) ⟨7, .remote ["osmosis"]⟩ (.named "host")
    (by rfl) (by rfl) (by rfl) (by rfl) (by rfl)).1 (by decide)

def demoBadManagerQueries : ExtQueries :=
  { demoQueries with
      managerModule := .ok ⟨"abstract:manager", .app (.named "x")⟩ }

theorem wrong_module_kind_error_witness :
    execute_create_account demoBadManagerQueries demoStorage demoInputs =
      .error (.wrongModuleKind "abstract:proxy" "account_base") :=
  wrong_module_kind_error demoBadManagerQueries demoStorage demoInputs
    (.monarchy (.named "alice")) ⟨5, .localTrace⟩ demoProxyModule
    ⟨"abstract:manager", .app (.named "x")⟩ [⟨"tokenA", 10⟩] []
    [("tokenA", 10)] []
    (by rfl) (by rfl) (by rfl) (by rfl) (by rfl) (by rfl) (by rfl) (by rfl)
    (by rfl) (Or.inr (fun k h => ModuleReference.noConfusion h))

def demoStorageNoHost : Storage :=
  { demoStorage with config := { demoConfig with ibc_host := none } }

theorem remote_id_without_gateway_witness :
    execute_create_account demoQueries demoStorageNoHost demoInputsRemote =
      .error .ibcHostNotSet :=
  remote_id_without_gateway demoQueries demoStorageNoHost demoInputsRemote
    (.monarchy (.named "alice")) ⟨7, .remote ["osmosis"]⟩
    (by rfl) (by rfl) (by rfl) (by rfl) (by rfl)

end AccountFactory
